import Mathlib

/-!
Verification of `src/resources/resource_protocol/reader-mode.js`.

The script is a one-shot, idempotent-toggle "reader mode" DOM transformation:
a re-entry guard (`data-reader-mode` attribute on `document.body`), a content
locator (semantic markers `article` / `[role="main"]` / `main`, falling back to
heuristic scoring over all `div`, `section`, `td` elements), and a rebuilder
(deep-clone the located node, strip excluded tags and ad/nav-like class/id
elements from the clone, reset head and body, and rebuild them from the
extracted title and the cleaned clone's children).

The DOM is shallowly embedded as a tree of element and text nodes.  Element
identity (the object identity that `parentNode.removeChild` operates on) is
modelled by a numeric id `nid` carried by every element; tag names are stored
in canonical lowercase form (the DOM's `tagName.toLowerCase()` normalisation),
and attributes are an association list, so `className` / `id` are the `class` /
`id` attribute values defaulting to the empty string, matching
`node.className || ''` on elements.  Scores are rationals (`ℚ`): the script's
arithmetic (`length / 100`, `min`, integer weights) is exact rational
arithmetic, no floating-point rounding is reachable at these magnitudes.
-/

namespace ReaderMode

mutual

/-- A DOM node: an element (identity `nid`, lowercase tag, attribute list,
child nodes) or a text node.  `NodeList` is the (mutually inductive) list of
children, kept separate from `List` so that all tree recursions are
structural. -/
inductive Node : Type where
  | text (s : String) : Node
  | elem (nid : Nat) (tag : String) (attrs : List (String × String)) (children : NodeList) : Node

/-- The children of a DOM element, in document order. -/
inductive NodeList : Type where
  | nil : NodeList
  | cons (hd : Node) (tl : NodeList) : NodeList

end

/-- Convert an ordinary list of nodes into a `NodeList` (used to write down
concrete documents). -/
def NodeList.ofList : List Node → NodeList
  | [] => .nil
  | n :: ns => .cons n (NodeList.ofList ns)

/-- `getAttribute`: look up an attribute in the association list; `none` is the
DOM's `null` for an absent attribute. -/
def getAttrL (attrs : List (String × String)) (k : String) : Option String :=
  (attrs.find? (fun p => p.1 == k)).map (fun p => p.2)

/-- `setAttribute`: replace or add the binding for `k`. -/
def setAttrL (attrs : List (String × String)) (k v : String) : List (String × String) :=
  (k, v) :: attrs.eraseP (fun p => p.1 == k)

/-- An attribute read that defaults to the empty string, as the reflected
`className` / `id` properties do for absent attributes. -/
def attrD (attrs : List (String × String)) (k : String) : String :=
  (getAttrL attrs k).getD ""

/-- `pat` is a prefix of `l` (character-list version, structurally recursive so
the kernel can evaluate it). -/
def startsWithL : List Char → List Char → Bool
  | [], _ => true
  | _ :: _, [] => false
  | p :: ps, c :: cs => p == c && startsWithL ps cs

/-- `pat` occurs as a contiguous substring of `l`. -/
def hasSubL (pat : List Char) : List Char → Bool
  | [] => startsWithL pat []
  | c :: cs => startsWithL pat (c :: cs) || hasSubL pat cs

/-- Substring test on strings: `containsSub s pat` holds iff `pat` occurs in
`s`.  This is the semantics of testing a regex literal `pat` (no operators)
against `s`. -/
def containsSub (s pat : String) : Bool :=
  hasSubL pat.data s.data

/-- Semantics of testing an alternation regex `/p1|p2|…/.test(s)` whose
branches are the literal strings `pats`. -/
def testAny (pats : List String) (s : String) : Bool :=
  pats.any (fun p => containsSub s p)

/-- `String.toLowerCase()`, written as a structural map over the character
data so proofs can evaluate it. -/
def lowerStr (s : String) : String :=
  String.mk (s.data.map Char.toLower)

/-- `tagName` of a node (elements store canonical lowercase tags; text nodes
have no tag and yield `""`, which never matches any tag selector). -/
def tagName : Node → String
  | .text _ => ""
  | .elem _ t _ _ => t

/-- The `nid` identity of a node (text nodes are never targets of removal). -/
def nidOf : Node → Nat
  | .text _ => 0
  | .elem n _ _ _ => n

/-- The children of an element node. -/
def childrenOf : Node → NodeList
  | .text _ => .nil
  | .elem _ _ _ cs => cs

/-- `getAttribute` on a node. -/
def getAttrN (k : String) : Node → Option String
  | .text _ => none
  | .elem _ _ a _ => getAttrL a k

/-- `node.className || ''`. -/
def classOfN (n : Node) : String :=
  match n with
  | .text _ => ""
  | .elem _ _ a _ => attrD a "class"

/-- `node.id || ''`. -/
def idOfN (n : Node) : String :=
  match n with
  | .text _ => ""
  | .elem _ _ a _ => attrD a "id"

/-- The combined lowercase class+id string
`((node.className || '') + ' ' + (node.id || '')).toLowerCase()` used both by
the scoring function and the class/id cleanup pass. -/
def ciString (n : Node) : String :=
  lowerStr (classOfN n ++ " " ++ idOfN n)

mutual

/-- `innerText` of a node: concatenation of all text-node data beneath it (the
model of the visible text the script measures). -/
def innerTextN : Node → String
  | .text s => s
  | .elem _ _ _ cs => innerTextL cs

/-- `innerText` of a list of children, in order. -/
def innerTextL : NodeList → String
  | .nil => ""
  | .cons c cs => innerTextN c ++ innerTextL cs

end

mutual

/-- All element nodes of a subtree, self included, in document (preorder)
order: the model of `querySelectorAll` result order. -/
def elemsSelf : Node → List Node
  | .text _ => []
  | .elem nid t a cs => Node.elem nid t a cs :: elemsL cs

/-- All element nodes under a list of children, in document order. -/
def elemsL : NodeList → List Node
  | .nil => []
  | .cons c cs => elemsSelf c ++ elemsL cs

end

/-- The strict element descendants of a node, in document order
(`node.querySelectorAll('*')` excludes the node itself). -/
def descElems : Node → List Node :=
  fun n => elemsL (childrenOf n)

/-- The (identity, tag, combined lowercase class+id) record of an element:
exactly the data the cleanup passes consult. -/
abbrev Info := Nat × String × String

mutual

/-- The `Info` records of a subtree, self included, in document order. -/
def infosN : Node → List Info
  | .text _ => []
  | .elem nid t a cs =>
      (nid, t, lowerStr (attrD a "class" ++ " " ++ attrD a "id")) :: infosL cs

/-- The `Info` records under a list of children, in document order. -/
def infosL : NodeList → List Info
  | .nil => []
  | .cons c cs => infosN c ++ infosL cs

end

/-- The `Info` records of the strict descendants of a node. -/
def infosUnder (n : Node) : List Info :=
  infosL (childrenOf n)

mutual

/-- `parentNode.removeChild(el)` for the element whose identity is `m`:
detach every child whose `nid` is `m`, at any depth, from the tree rooted
here (the root itself is never detached from itself).  With the distinct
identities a real DOM provides this is exactly the removal of the one node
`m`. -/
def removeN (m : Nat) : Node → Node
  | .text s => .text s
  | .elem nid t a cs => .elem nid t a (removeL m cs)

/-- Removal of identity `m` inside a child list. -/
def removeL (m : Nat) : NodeList → NodeList
  | .nil => .nil
  | .cons (.text s) cs => .cons (.text s) (removeL m cs)
  | .cons (.elem nid t a gs) cs =>
      if nid == m then removeL m cs
      else .cons (.elem nid t a (removeL m gs)) (removeL m cs)

end

/-- Is the element with identity `m` still attached beneath `c` (a strict
descendant)? -/
def presentD (m : Nat) (c : Node) : Bool :=
  (infosUnder c).any (fun x => x.1 == m)

/-- The live document: its title string, the children of `head`, and the
`body` element (identity, attributes, children).  `head` and `body` are
guaranteed by the host and modelled as explicit fields. -/
structure Document : Type where
  title : String
  headChildren : NodeList
  bodyNid : Nat
  bodyAttrs : List (String × String)
  bodyChildren : NodeList

/-- `document.body` as a node. -/
def bodyNode (d : Document) : Node :=
  Node.elem d.bodyNid "body" d.bodyAttrs d.bodyChildren

/-- All elements of the document in document order (head contents first, then
the body element and its descendants): the scan order of
`document.querySelector` / `document.querySelectorAll`. -/
def docElems (d : Document) : List Node :=
  elemsL d.headChildren ++ elemsSelf (bodyNode d)

/-- Selector predicate for a fixed tag. -/
def isTag (t : String) (n : Node) : Bool :=
  tagName n == t

/-- Selector predicate for `[role="main"]`. -/
def hasRoleMain (n : Node) : Bool :=
  getAttrN "role" n == some "main"

/-- The re-entry guard `document.body.getAttribute('data-reader-mode') === 'true'`
(line 5 of the source). -/
def readerGuard (d : Document) : Bool :=
  getAttrL d.bodyAttrs "data-reader-mode" == some "true"

/-- The number of paragraph descendants `node.querySelectorAll('p').length`. -/
def pCount (n : Node) : Nat :=
  ((descElems n).filter (isTag "p")).length

/-- The class/id penalty keywords of `scoreNode` (line 21). -/
def scorePenaltyPats : List String :=
  ["comment", "sidebar", "widget", "footer", "nav", "menu", "ad", "social", "share", "related"]

/-- The class/id bonus keywords of `scoreNode` (line 24). -/
def scoreBonusPats : List String :=
  ["article", "content", "post", "entry", "body", "main", "text", "story"]

/-- The heuristic `scoreNode` (lines 11–28), translated statement by
statement: start from `0`, add the capped text-density base, add `3` per
paragraph descendant, subtract `50` for a structural-boilerplate own tag,
subtract `30` on a class/id penalty keyword match, add `25` on a class/id
bonus keyword match. -/
def scoreNode (node : Node) : ℚ :=
  let text := innerTextN node
  let score1 : ℚ := 0 + min ((text.length : ℚ) / 100) 20
  let score2 : ℚ := score1 + (pCount node : ℚ) * 3
  let tag := tagName node
  let score3 : ℚ :=
    if tag == "nav" || tag == "aside" || tag == "footer" || tag == "header" then
      score2 - 50
    else score2
  let ci := ciString node
  let score4 : ℚ := if testAny scorePenaltyPats ci then score3 - 30 else score3
  let score5 : ℚ := if testAny scoreBonusPats ci then score4 + 25 else score4
  score5

/-- `document.querySelectorAll('div, section, td')`: all candidate elements of
the heuristic scan, in document order (line 33). -/
def candidates (d : Document) : List Node :=
  (docElems d).filter (fun n => isTag "div" n || isTag "section" n || isTag "td" n)

/-- One iteration of the selection loop (lines 35–41): the accumulator is
`none` before the first candidate (`bestScore = -Infinity`, which every finite
score strictly exceeds) and otherwise holds the current best node paired with
its stored `bestScore`. -/
def selStep (acc : Option (Node × ℚ)) (n : Node) : Option (Node × ℚ) :=
  let s := scoreNode n
  match acc with
  | none => some (n, s)
  | some (b, bs) => if bs < s then some (n, s) else some (b, bs)

/-- The heuristic selection loop over the candidate list; `none` iff there are
no candidates at all. -/
def selectLoop (cands : List Node) : Option Node :=
  (cands.foldl selStep none).map (fun p => p.1)

/-- `document.querySelector('article') || document.querySelector('[role="main"]')
|| document.querySelector('main')` (line 30): the first truthy result of the
three selectors. -/
def semanticContent (d : Document) : Option Node :=
  match (docElems d).find? (isTag "article") with
  | some n => some n
  | none =>
    match (docElems d).find? hasRoleMain with
    | some n => some n
    | none => (docElems d).find? (isTag "main")

/-- The content locator (lines 30–46): semantic markers first; if none, the
heuristic scan; if there were no candidates either, `document.body`. -/
def locateContent (d : Document) : Node :=
  match semanticContent d with
  | some n => n
  | none =>
    match selectLoop (candidates d) with
    | some n => n
    | none => bodyNode d

/-- Title extraction (lines 49–53): `document.title || ''` (the title is
always a string, so this is the title itself), overridden by the first `h1`'s
`innerText` when that element exists and its text is truthy (non-empty). -/
def extractTitle (d : Document) : String :=
  let title := d.title
  match (docElems d).find? (isTag "h1") with
  | some h => if innerTextN h != "" then innerTextN h else title
  | none => title

/-- The excluded tag list of the tag-based cleanup pass (lines 57–58). -/
def removeTags : List String :=
  ["script", "style", "iframe", "nav", "aside", "footer", "header",
   "form", "button", "input", "select", "textarea", "noscript"]

/-- `clone.querySelectorAll(tag)` as the identity list of the matching strict
descendants, in document order: the static snapshot the inner removal loop
walks. -/
def tagSnapshot (t : String) (c : Node) : List Nat :=
  (infosUnder c).filterMap (fun x => if x.2.1 == t then some x.1 else none)

/-- One tag's removal pass (lines 60–63): snapshot the matching descendants,
then remove each from the clone in reverse document order. -/
def removeTagPass (c : Node) (t : String) : Node :=
  (tagSnapshot t c).reverse.foldl (fun acc m => removeN m acc) c

/-- The whole tag-based exclusion pass (lines 59–64), one sub-pass per
excluded tag, in the source's order. -/
def cleanTags (c : Node) : Node :=
  removeTags.foldl removeTagPass c

/-- The class/id cleanup keywords (line 71). -/
def cleanupPats : List String :=
  ["ad-", "ads-", "advert", "sidebar", "widget", "share", "social",
   "comment", "related", "popup", "modal", "overlay", "cookie", "banner"]

/-- Does a combined lowercase class+id string match the cleanup regex? -/
def badClassId (ci : String) : Bool :=
  testAny cleanupPats ci

/-- State of the class/id cleanup loop: the clone being cleaned, plus the
identities of the elements whose `parentNode` is currently `null` (each
`removeChild` detaches its target, so the detached roots accumulate). -/
abbrev CState := Node × List Nat

/-- One iteration of the class/id cleanup loop (lines 68–75) on the snapshot
record `i` of an element: if its class+id string matches, then
— if `el.parentNode` is `null` (`i.1` is a detached root) the guard skips it;
— if it is still attached beneath the clone, `removeChild` detaches it there;
— otherwise it sits inside an already-detached subtree, and `removeChild`
  detaches it from its detached parent, leaving the clone untouched.
In the last two cases the element's own parent becomes `null`. -/
def classIdStep (s : CState) (i : Info) : CState :=
  if badClassId i.2.2 then
    if s.2.contains i.1 then s
    else if presentD i.1 s.1 then (removeN i.1 s.1, i.1 :: s.2)
    else (s.1, i.1 :: s.2)
  else s

/-- The class/id cleanup pass (lines 67–76): fold the loop over the static
snapshot `clone.querySelectorAll('*')`, starting with no detached element. -/
def classIdPassPair (c : Node) : CState :=
  (infosUnder c).foldl classIdStep (c, [])

/-- The cleaned clone after the class/id pass. -/
def classIdPass (c : Node) : Node :=
  (classIdPassPair c).1

/-- The class/id cleanup loop in an error monad where every step must account
for the possibility of a thrown `TypeError`: each branch of the guarded step
returns normally, which is what the `if (el.parentNode)` ownership check
guarantees. -/
def classIdStepE (s : CState) (i : Info) : Except String CState :=
  if badClassId i.2.2 then
    if s.2.contains i.1 then Except.ok s
    else if presentD i.1 s.1 then Except.ok (removeN i.1 s.1, i.1 :: s.2)
    else Except.ok (s.1, i.1 :: s.2)
  else Except.ok s

/-- The same loop with the ownership guard removed: calling
`el.parentNode.removeChild` when `parentNode` is `null` throws. -/
def classIdStepUnguarded (s : CState) (i : Info) : Except String CState :=
  if badClassId i.2.2 then
    if s.2.contains i.1 then Except.error "TypeError: parentNode is null"
    else if presentD i.1 s.1 then Except.ok (removeN i.1 s.1, i.1 :: s.2)
    else Except.ok (s.1, i.1 :: s.2)
  else Except.ok s

/-- The class/id cleanup pass in the error monad. -/
def classIdPassE (c : Node) : Except String CState :=
  (infosUnder c).foldlM classIdStepE (c, [])

/-- `<meta charset="UTF-8">` (lines 87–89). -/
def metaCharset : Node :=
  Node.elem 0 "meta" [("charset", "UTF-8")] NodeList.nil

/-- `<meta name="viewport" …>` (lines 91–94). -/
def metaViewport : Node :=
  Node.elem 0 "meta" [("name", "viewport"), ("content", "width=device-width, initial-scale=1.0")] NodeList.nil

/-- The fixed presentation stylesheet (lines 99–106); braces are written as
their character escapes. -/
def styleText : String :=
  "body \x7b font-family: Georgia, \"Times New Roman\", serif; line-height: 1.8; max-width: 680px; margin: 40px auto; padding: 0 20px; color: #333; background: #fafafa; \x7d" ++
  "@media (prefers-color-scheme: dark) \x7b body \x7b color: #d4d4d4; background: #1a1a1a; \x7d a \x7b color: #6db3f2; \x7d \x7d" ++
  "h1 \x7b font-size: 1.8em; line-height: 1.3; margin-bottom: 0.5em; \x7d" ++
  "img \x7b max-width: 100%; height: auto; \x7d" ++
  "pre, code \x7b font-size: 0.9em; overflow-x: auto; \x7d" ++
  "blockquote \x7b border-left: 3px solid #ccc; margin-left: 0; padding-left: 1em; color: #666; \x7d" ++
  "@media (prefers-color-scheme: dark) \x7b blockquote \x7b border-left-color: #555; color: #aaa; \x7d \x7d"

/-- The `<style>` element carrying the fixed stylesheet (lines 98–107). -/
def styleNode : Node :=
  Node.elem 0 "style" [] (NodeList.cons (Node.text styleText) NodeList.nil)

/-- The fresh `<h1>` heading holding the extracted title (lines 114–115). -/
def newHeading (title : String) : Node :=
  Node.elem 0 "h1" [] (NodeList.cons (Node.text title) NodeList.nil)

/-- The document after the reset-and-rebuild steps (lines 83–123): head
cleared then refilled with the two metas and the style block, title set to the
prefixed extracted title, body cleared then refilled with the heading followed
by the transfer of every child of the cleaned clone (in order), and the mode
flag set on `body` (whose other attributes are untouched). -/
def rebuildDoc (d : Document) (title : String) (cleanedClone : Node) : Document :=
  { title := "Reader: " ++ title
    headChildren := NodeList.cons metaCharset (NodeList.cons metaViewport (NodeList.cons styleNode NodeList.nil))
    bodyNid := d.bodyNid
    bodyAttrs := setAttrL d.bodyAttrs "data-reader-mode" "true"
    bodyChildren := NodeList.cons (newHeading title) (childrenOf cleanedClone) }

/-- The intermediate state of the transformation while the Rebuilder owns the
detached clone: the (still unmodified) live document plus the scratch clone. -/
structure MidState : Type where
  doc : Document
  clone : Node

/-- `content.cloneNode(true)` (line 56): a deep copy of the located node.
Values are immutable, so the located subtree itself is the detached copy, and
any mutation of the clone leaves `doc` untouched by construction. -/
def cloneStep (d : Document) : MidState :=
  { doc := d, clone := locateContent d }

/-- The tag-based cleanup phase, acting on the scratch clone only. -/
def tagCleanStep (s : MidState) : MidState :=
  { doc := s.doc, clone := cleanTags s.clone }

/-- The class/id cleanup phase, acting on the scratch clone only. -/
def classIdCleanStep (s : MidState) : MidState :=
  { doc := s.doc, clone := classIdPass s.clone }

/-- The observable outcome of one invocation: a reload of the original page
(the already-in-reader-mode branch, lines 5–8) or the rebuilt document. -/
inductive RunResult : Type where
  | reload : RunResult
  | done (d : Document) : RunResult

/-- The whole script (lines 1–125): guard, locate, extract title, clone,
clean, rebuild.  The final `window.scrollTo(0, 0)` resets the viewport and
touches no document state. -/
def run (d : Document) : RunResult :=
  if readerGuard d then RunResult.reload
  else
    let title := extractTitle d
    let s1 := cloneStep d
    let s2 := tagCleanStep s1
    let s3 := classIdCleanStep s2
    RunResult.done (rebuildDoc s3.doc title s3.clone)

/-- No strict descendant of `c` carries identity `m`. -/
def cloneAbsent (c : Node) (m : Nat) : Prop :=
  ∀ x ∈ infosUnder c, x.1 ≠ m

/-- Loop invariant of the class/id pass: every recorded detached root is
absent from the clone. -/
def cInv (s : CState) : Prop :=
  ∀ r ∈ s.2, cloneAbsent s.1 r

/-- The selection loop with the running best made explicit: starting from best
`b`, scan `L`, replacing the best on a strictly greater score. -/
def loopSpec (b : Node) : List Node → Node
  | [] => b
  | x :: xs => if scoreNode b < scoreNode x then loopSpec x xs else loopSpec b xs

/-- `scoreNode` with its own-tag penalty term deleted: the reference scoring
function of the refinement claim that the penalty branch is unreachable on
heuristic candidates. -/
def scoreNodeNoOwnTag (node : Node) : ℚ :=
  let text := innerTextN node
  let score1 : ℚ := 0 + min ((text.length : ℚ) / 100) 20
  let score2 : ℚ := score1 + (pCount node : ℚ) * 3
  let ci := ciString node
  let score4 : ℚ := if testAny scorePenaltyPats ci then score2 - 30 else score2
  let score5 : ℚ := if testAny scoreBonusPats ci then score4 + 25 else score4
  score5

/-! ### Concrete witness data -/

/-- A content `div` holding a script, an ad-classed span (with an innocent
descendant), loose text and a paragraph. -/
def sampleDiv : Node :=
  Node.elem 2 "div" []
    (NodeList.ofList
      [ Node.elem 3 "script" [] (NodeList.ofList [Node.text "evil()"])
      , Node.elem 4 "span" [("class", "ad-banner-top")]
          (NodeList.ofList [Node.elem 5 "b" [] (NodeList.ofList [Node.text "buy"])])
      , Node.text "keep me"
      , Node.elem 6 "p" [] (NodeList.ofList [Node.text "para"]) ])

/-- A small page with no semantic marker and one heuristic candidate. -/
def sampleDoc : Document :=
  { title := "Orig"
    headChildren := NodeList.nil
    bodyNid := 1
    bodyAttrs := [("class", "site")]
    bodyChildren := NodeList.ofList [sampleDiv] }

/-- The rebuilt form of `sampleDoc`. -/
def sampleDone : Document :=
  rebuildDoc sampleDoc (extractTitle sampleDoc)
    (classIdPass (cleanTags (locateContent sampleDoc)))

/-- A page already in reader mode. -/
def readerDoc : Document :=
  { title := "Already"
    headChildren := NodeList.nil
    bodyNid := 1
    bodyAttrs := [("data-reader-mode", "true")]
    bodyChildren := NodeList.nil }

/-- An `article` element. -/
def articleNode : Node :=
  Node.elem 2 "article" [] (NodeList.ofList [Node.text "art"])

/-- A page holding both an `article` tag and a `div` that would score higher
heuristically (class bonus, paragraph, text). -/
def articleDoc : Document :=
  { title := "A"
    headChildren := NodeList.nil
    bodyNid := 1
    bodyAttrs := []
    bodyChildren := NodeList.ofList
      [ articleNode
      , Node.elem 3 "div" [("class", "content")]
          (NodeList.ofList [Node.elem 4 "p" [] (NodeList.ofList [Node.text "lots of text here"])]) ] }

/-! ### Lemmas about removal -/

/-- Removal never adds element records: every element surviving a removal was
already there, with the same identity, tag and class/id data. -/
theorem infosL_removeL_sub (m : Nat) (l : NodeList) :
    ∀ x ∈ infosL (removeL m l), x ∈ infosL l := by
  match l with
  | .nil =>
      intro x hx
      exact hx
  | .cons (.text s) cs =>
      intro x hx
      simp only [removeL, infosL, infosN] at hx ⊢
      exact infosL_removeL_sub m cs x hx
  | .cons (.elem nid t a gs) cs =>
      intro x hx
      by_cases h : (nid == m) = true
      · simp only [removeL, if_pos h] at hx
        simp only [infosL, infosN, List.mem_cons, List.mem_append]
        exact Or.inr (infosL_removeL_sub m cs x hx)
      · simp only [removeL, if_neg h, infosL, infosN, List.mem_cons, List.mem_append] at hx ⊢
        rcases hx with (hx | hx) | hx
        · exact Or.inl (Or.inl hx)
        · exact Or.inl (Or.inr (infosL_removeL_sub m gs x hx))
        · exact Or.inr (infosL_removeL_sub m cs x hx)

/-- After removing identity `m` from a child list, no surviving element record
carries identity `m`. -/
theorem infosL_removeL_ne (m : Nat) (l : NodeList) :
    ∀ x ∈ infosL (removeL m l), x.1 ≠ m := by
  match l with
  | .nil =>
      intro x hx
      simp only [removeL, infosL] at hx
      exact absurd hx (List.not_mem_nil x)
  | .cons (.text s) cs =>
      intro x hx
      simp only [removeL, infosL, infosN] at hx
      exact infosL_removeL_ne m cs x hx
  | .cons (.elem nid t a gs) cs =>
      intro x hx
      by_cases h : (nid == m) = true
      · simp only [removeL, if_pos h] at hx
        exact infosL_removeL_ne m cs x hx
      · simp only [removeL, if_neg h, infosL, infosN, List.mem_cons, List.mem_append] at hx
        rcases hx with (hx | hx) | hx
        · subst hx
          simpa using h
        · exact infosL_removeL_ne m gs x hx
        · exact infosL_removeL_ne m cs x hx

/-- Node-level form of `infosL_removeL_sub`. -/
theorem infosUnder_removeN_sub (m : Nat) (n : Node) :
    ∀ x ∈ infosUnder (removeN m n), x ∈ infosUnder n := by
  cases n with
  | text s => intro x hx; exact hx
  | elem nid t a cs => exact infosL_removeL_sub m cs

/-- Node-level form of `infosL_removeL_ne`. -/
theorem infosUnder_removeN_ne (m : Nat) (n : Node) :
    ∀ x ∈ infosUnder (removeN m n), x.1 ≠ m := by
  cases n with
  | text s => intro x hx; cases hx
  | elem nid t a cs => exact infosL_removeL_ne m cs

/-- A fold of removals never adds element records. -/
theorem foldRemove_sub (L : List Nat) (c : Node) :
    ∀ x ∈ infosUnder (L.foldl (fun acc m => removeN m acc) c), x ∈ infosUnder c := by
  induction L generalizing c with
  | nil => intro x hx; exact hx
  | cons k ks ih =>
      intro x hx
      exact infosUnder_removeN_sub k c x (ih (removeN k c) x hx)

/-- After a fold of removals, every identity in the removal list is gone. -/
theorem foldRemove_kills (L : List Nat) (c : Node) :
    ∀ m ∈ L, ∀ x ∈ infosUnder (L.foldl (fun acc m => removeN m acc) c), x.1 ≠ m := by
  induction L generalizing c with
  | nil => intro m hm; cases hm
  | cons k ks ih =>
      intro m hm x hx
      rcases List.mem_cons.mp hm with h | h
      · subst h
        exact infosUnder_removeN_ne m c x (foldRemove_sub ks (removeN m c) x hx)
      · exact ih (removeN k c) m h x hx

/-- One tag's removal pass never adds element records. -/
theorem removeTagPass_sub (c : Node) (t : String) :
    ∀ x ∈ infosUnder (removeTagPass c t), x ∈ infosUnder c :=
  foldRemove_sub (tagSnapshot t c).reverse c

/-- One tag's removal pass removes every descendant with that tag. -/
theorem removeTagPass_kills (c : Node) (t : String) :
    ∀ x ∈ infosUnder (removeTagPass c t), x.2.1 ≠ t := by
  intro x hx hxt
  have hsub : x ∈ infosUnder c := removeTagPass_sub c t x hx
  have hmem : x.1 ∈ tagSnapshot t c := by
    simp only [tagSnapshot, List.mem_filterMap]
    exact ⟨x, hsub, by simp [hxt]⟩
  exact foldRemove_kills (tagSnapshot t c).reverse c x.1
    (List.mem_reverse.mpr hmem) x hx rfl

/-- A fold of tag passes never adds element records. -/
theorem foldTagPass_sub (ts : List String) (c : Node) :
    ∀ x ∈ infosUnder (ts.foldl removeTagPass c), x ∈ infosUnder c := by
  induction ts generalizing c with
  | nil => intro x hx; exact hx
  | cons u us ih =>
      intro x hx
      exact removeTagPass_sub c u x (ih (removeTagPass c u) x hx)

/-- After folding the tag passes, no descendant carries any processed tag. -/
theorem foldTagPass_kills (ts : List String) (c : Node) :
    ∀ t ∈ ts, ∀ x ∈ infosUnder (ts.foldl removeTagPass c), x.2.1 ≠ t := by
  induction ts generalizing c with
  | nil => intro t ht; cases ht
  | cons u us ih =>
      intro t ht x hx
      rcases List.mem_cons.mp ht with h | h
      · rw [h]
        exact removeTagPass_kills c u x (foldTagPass_sub us (removeTagPass c u) x hx)
      · exact ih (removeTagPass c u) t h x hx

/-- Tag-based exclusion completeness: after `cleanTags`, no strict descendant
carries a tag of the excluded tag set. -/
theorem cleanTags_kills (c : Node) :
    ∀ t ∈ removeTags, ∀ x ∈ infosUnder (cleanTags c), x.2.1 ≠ t :=
  foldTagPass_kills removeTags c

/-- `cleanTags` never adds element records. -/
theorem cleanTags_sub (c : Node) :
    ∀ x ∈ infosUnder (cleanTags c), x ∈ infosUnder c :=
  foldTagPass_sub removeTags c

/-! ### Lemmas about the class/id cleanup pass -/

/-- `presentD` decides attachment: it is `false` exactly when the identity is
absent from the clone. -/
theorem presentD_false_iff (m : Nat) (c : Node) :
    presentD m c = false ↔ cloneAbsent c m := by
  simp only [presentD, cloneAbsent, List.any_eq_false, beq_iff_eq]

/-- The clone component of a class/id step is the old clone or a removal
from it. -/
theorem classIdStep_fst (s : CState) (i : Info) :
    (classIdStep s i).1 = s.1 ∨ (classIdStep s i).1 = removeN i.1 s.1 := by
  unfold classIdStep
  split
  · split
    · exact Or.inl rfl
    · split
      · exact Or.inr rfl
      · exact Or.inl rfl
  · exact Or.inl rfl

/-- A class/id step never adds element records to the clone. -/
theorem classIdStep_sub (s : CState) (i : Info) :
    ∀ x ∈ infosUnder (classIdStep s i).1, x ∈ infosUnder s.1 := by
  intro x hx
  rcases classIdStep_fst s i with h | h
  · rw [h] at hx
    exact hx
  · rw [h] at hx
    exact infosUnder_removeN_sub i.1 s.1 x hx

/-- A class/id step preserves absence from the clone. -/
theorem classIdStep_absent (s : CState) (i : Info) (m : Nat)
    (h : cloneAbsent s.1 m) : cloneAbsent (classIdStep s i).1 m := by
  intro x hx
  exact h x (classIdStep_sub s i x hx)

/-- A class/id step preserves the detached-roots invariant. -/
theorem classIdStep_inv (s : CState) (i : Info) (h : cInv s) :
    cInv (classIdStep s i) := by
  unfold classIdStep
  split
  · split
    · exact h
    · split
      · intro r hr
        rcases List.mem_cons.mp hr with hr | hr
        · rw [hr]
          exact infosUnder_removeN_ne i.1 s.1
        · intro x hx
          exact h r hr x (infosUnder_removeN_sub i.1 s.1 x hx)
      · rename_i hpres
        intro r hr
        rcases List.mem_cons.mp hr with hr | hr
        · rw [hr]
          exact (presentD_false_iff i.1 s.1).mp (by simpa using hpres)
        · exact h r hr
  · exact h

/-- After its own step, a matching element is absent from the clone (the three
branches: it was already a detached root, it is removed now, or it sat inside
a detached subtree and was never in the clone any more). -/
theorem classIdStep_kills (s : CState) (i : Info) (hInv : cInv s)
    (hb : badClassId i.2.2 = true) : cloneAbsent (classIdStep s i).1 i.1 := by
  unfold classIdStep
  rw [if_pos hb]
  split
  · rename_i hroot
    exact hInv i.1 (by simpa using hroot)
  · split
    · exact infosUnder_removeN_ne i.1 s.1
    · rename_i hpres
      exact (presentD_false_iff i.1 s.1).mp (by simpa using hpres)

/-- A fold of class/id steps never adds element records to the clone. -/
theorem classIdFold_sub (L : List Info) (s : CState) :
    ∀ x ∈ infosUnder (L.foldl classIdStep s).1, x ∈ infosUnder s.1 := by
  induction L generalizing s with
  | nil => intro x hx; exact hx
  | cons i L ih =>
      intro x hx
      exact classIdStep_sub s i x (ih (classIdStep s i) x hx)

/-- After folding the class/id steps over a snapshot, every matching element
of the snapshot is absent from the clone. -/
theorem classIdFold_kills (L : List Info) (s : CState) (hInv : cInv s) :
    ∀ i ∈ L, badClassId i.2.2 = true →
      cloneAbsent (L.foldl classIdStep s).1 i.1 := by
  induction L generalizing s with
  | nil => intro i hi; cases hi
  | cons j L ih =>
      intro i hi hb
      rcases List.mem_cons.mp hi with h | h
      · intro x hx
        have hx' : x ∈ infosUnder (classIdStep s j).1 :=
          classIdFold_sub L (classIdStep s j) x hx
        have hk := classIdStep_kills s j hInv (by rw [← h]; exact hb)
        rw [h]
        exact hk x hx'
      · exact ih (classIdStep s j) (classIdStep_inv s j hInv) i h hb

/-- Class/id exclusion completeness: after the class/id pass, no strict
descendant's combined lowercase class+id string matches the cleanup regex. -/
theorem classIdPass_kills (c : Node) :
    ∀ x ∈ infosUnder (classIdPass c), badClassId x.2.2 = false := by
  intro x hx
  cases hb : badClassId x.2.2 with
  | false => rfl
  | true =>
      exfalso
      have hsub : x ∈ infosUnder c :=
        classIdFold_sub (infosUnder c) (c, []) x hx
      have habs : cloneAbsent ((infosUnder c).foldl classIdStep (c, [])).1 x.1 :=
        classIdFold_kills (infosUnder c) (c, []) (by intro r hr; cases hr) x hsub hb
      exact habs x hx rfl

/-- The class/id pass never adds element records. -/
theorem classIdPass_sub (c : Node) :
    ∀ x ∈ infosUnder (classIdPass c), x ∈ infosUnder c :=
  classIdFold_sub (infosUnder c) (c, [])

/-- Every guarded step succeeds: the error-monad step agrees with the plain
step on every input. -/
theorem classIdStepE_eq (s : CState) (i : Info) :
    classIdStepE s i = Except.ok (classIdStep s i) := by
  unfold classIdStepE classIdStep
  split
  · split
    · rfl
    · split
      · rfl
      · rfl
  · rfl

/-- Folding the guarded error-monad steps never produces an error. -/
theorem foldlM_classIdStepE (L : List Info) (s : CState) :
    L.foldlM classIdStepE s = Except.ok (L.foldl classIdStep s) := by
  induction L generalizing s with
  | nil => rfl
  | cons i L ih =>
      show (classIdStepE s i >>= fun t => L.foldlM classIdStepE t) = _
      rw [classIdStepE_eq]
      show L.foldlM classIdStepE (classIdStep s i) = _
      exact ih (classIdStep s i)

/-! ### Lemmas about the selection loop -/

/-- The stored `bestScore` always equals the score of the stored best node,
so the fold computes `loopSpec`. -/
theorem foldl_selStep_some (L : List Node) (b : Node) :
    L.foldl selStep (some (b, scoreNode b)) =
      some (loopSpec b L, scoreNode (loopSpec b L)) := by
  induction L generalizing b with
  | nil => rfl
  | cons x xs ih =>
      show xs.foldl selStep (selStep (some (b, scoreNode b)) x) = _
      by_cases h : scoreNode b < scoreNode x
      · have hs : selStep (some (b, scoreNode b)) x = some (x, scoreNode x) := by
          simp [selStep, h]
        rw [hs, ih x, loopSpec, if_pos h]
      · have hs : selStep (some (b, scoreNode b)) x = some (b, scoreNode b) := by
          simp [selStep, h]
        rw [hs, ih b, loopSpec, if_neg h]

/-- The loop over a non-empty candidate list returns `loopSpec` of the first
candidate and the rest. -/
theorem selectLoop_cons (c : Node) (cs : List Node) :
    selectLoop (c :: cs) = some (loopSpec c cs) := by
  unfold selectLoop
  show ((cs.foldl selStep (selStep none c)).map fun p => p.1) = _
  have h0 : selStep none c = some (c, scoreNode c) := rfl
  rw [h0, foldl_selStep_some]
  rfl

/-- `loopSpec` returns the first maximum: the scanned list splits around the
returned node, with every earlier node scoring strictly less and every later
node scoring at most as much. -/
theorem loopSpec_first_max (L : List Node) (b : Node) :
    ∃ pre post, b :: L = pre ++ loopSpec b L :: post
      ∧ (∀ x ∈ pre, scoreNode x < scoreNode (loopSpec b L))
      ∧ (∀ x ∈ post, scoreNode x ≤ scoreNode (loopSpec b L)) := by
  induction L generalizing b with
  | nil =>
      refine ⟨[], [], rfl, ?_, ?_⟩
      · intro x hx
        exact absurd hx (List.not_mem_nil x)
      · intro x hx
        exact absurd hx (List.not_mem_nil x)
  | cons x xs ih =>
      by_cases h : scoreNode b < scoreNode x
      · obtain ⟨pre, post, he, hpre, hpost⟩ := ih x
        have hle : ∀ y ∈ x :: xs, scoreNode y ≤ scoreNode (loopSpec x xs) := by
          rw [he]
          intro y hy
          rcases List.mem_append.mp hy with hy | hy
          · exact le_of_lt (hpre y hy)
          · rcases List.mem_cons.mp hy with hy | hy
            · rw [hy]
            · exact hpost y hy
        rw [loopSpec, if_pos h]
        refine ⟨b :: pre, post, ?_, ?_, hpost⟩
        · rw [List.cons_append, ← he]
        · intro y hy
          rcases List.mem_cons.mp hy with hy | hy
          · rw [hy]
            exact lt_of_lt_of_le h (hle x (List.mem_cons_self x xs))
          · exact hpre y hy
      · obtain ⟨pre, post, he, hpre, hpost⟩ := ih b
        rw [loopSpec, if_neg h]
        cases pre with
        | nil =>
            have h1 : b = loopSpec b xs := by
              simpa using congrArg (fun l => l.head?) he
            have h2 : xs = post := by
              simpa using congrArg (fun l => l.tail) he
            refine ⟨[], x :: post, ?_, ?_, ?_⟩
            · rw [← h1, ← h2]
              rfl
            · intro y hy
              exact absurd hy (List.not_mem_nil y)
            · intro y hy
              rcases List.mem_cons.mp hy with hy | hy
              · rw [hy, ← h1]
                exact le_of_not_lt h
              · exact hpost y hy
        | cons p ps =>
            have h1 : b = p := by
              simpa using congrArg (fun l => l.head?) he
            have h2 : xs = ps ++ loopSpec b xs :: post := by
              simpa using congrArg (fun l => l.tail) he
            refine ⟨b :: x :: ps, post, ?_, ?_, hpost⟩
            · rw [List.cons_append, List.cons_append, ← h2]
            · intro y hy
              have hb : scoreNode b < scoreNode (loopSpec b xs) := by
                have hpp := hpre p (List.mem_cons_self p ps)
                rw [← h1] at hpp
                exact hpp
              rcases List.mem_cons.mp hy with hy | hy
              · rw [hy]
                exact hb
              · rcases List.mem_cons.mp hy with hy | hy
                · rw [hy]
                  exact lt_of_le_of_lt (le_of_not_lt h) hb
                · exact hpre y (List.mem_cons.mpr (Or.inr hy))

/-! ### Lemmas about the run -/

/-- Setting an attribute makes it readable. -/
theorem getAttrL_setAttrL (a : List (String × String)) (k v : String) :
    getAttrL (setAttrL a k v) k = some v := by
  simp [getAttrL, setAttrL, List.find?]

/-- The cloning step keeps the live document. -/
theorem cloneStep_doc (d : Document) : (cloneStep d).doc = d := by
  simp only [cloneStep]

/-- The cloning step's scratch clone is the located node's (deep-copied)
subtree. -/
theorem cloneStep_clone (d : Document) : (cloneStep d).clone = locateContent d := by
  simp only [cloneStep]

/-- The tag cleanup phase keeps the live document. -/
theorem tagCleanStep_doc (s : MidState) : (tagCleanStep s).doc = s.doc := by
  simp only [tagCleanStep]

/-- The tag cleanup phase rewrites only the clone. -/
theorem tagCleanStep_clone (s : MidState) : (tagCleanStep s).clone = cleanTags s.clone := by
  simp only [tagCleanStep]

/-- The class/id cleanup phase keeps the live document. -/
theorem classIdCleanStep_doc (s : MidState) : (classIdCleanStep s).doc = s.doc := by
  simp only [classIdCleanStep]

/-- The class/id cleanup phase rewrites only the clone. -/
theorem classIdCleanStep_clone (s : MidState) : (classIdCleanStep s).clone = classIdPass s.clone := by
  simp only [classIdCleanStep]

/-- When the guard is off, the run rebuilds the document from the extracted
title and the cleaned clone. -/
theorem run_eq_of_guard_false (d : Document) (hg : readerGuard d = false) :
    run d = RunResult.done
      (rebuildDoc d (extractTitle d) (classIdPass (cleanTags (locateContent d)))) := by
  unfold run
  rw [hg]
  simp only [Bool.false_eq_true, if_false, classIdCleanStep_doc, classIdCleanStep_clone,
    tagCleanStep_doc, tagCleanStep_clone, cloneStep_doc, cloneStep_clone]

/-- Inversion of a completed run: the guard was off and the result is the
rebuilt document. -/
theorem run_done_inv (d d' : Document) (h : run d = RunResult.done d') :
    readerGuard d = false ∧
      d' = rebuildDoc d (extractTitle d) (classIdPass (cleanTags (locateContent d))) := by
  cases hg : readerGuard d with
  | true =>
      exfalso
      unfold run at h
      rw [hg] at h
      simp at h
  | false =>
      refine ⟨rfl, ?_⟩
      rw [run_eq_of_guard_false d hg] at h
      injection h with h
      exact h.symm

/-! ### The claims -/

/-- C2: for every document whose mode flag already reads true at invocation,
the transformation performs a reload and returns; no rebuilt document is ever
produced in the Reader state, so no content-identification or DOM-rebuild
mutation occurs there. -/
theorem c2_guard_reload (d : Document)
    (h : getAttrL d.bodyAttrs "data-reader-mode" = some "true") :
    run d = RunResult.reload := by
  have hg : readerGuard d = true := by
    unfold readerGuard
    rw [h]
    rfl
  unfold run
  rw [hg]
  rfl

/-- Witness for C2: a page carrying the mode flag reloads. -/
theorem c2_guard_reload_witness : run readerDoc = RunResult.reload :=
  c2_guard_reload readerDoc rfl

/-- C5: the content locator tries the semantic markers in fixed priority
order — an `article` tag first (chosen no matter what any heuristic candidate
would score), then a `[role="main"]` node, then a `main` tag — returning the
first match immediately; the heuristic scan is reached only when all three
selectors fail. -/
theorem c5_semantic_priority (d : Document) :
    (∀ a, (docElems d).find? (isTag "article") = some a → locateContent d = a)
    ∧ ((docElems d).find? (isTag "article") = none →
        ∀ r, (docElems d).find? hasRoleMain = some r → locateContent d = r)
    ∧ ((docElems d).find? (isTag "article") = none →
        (docElems d).find? hasRoleMain = none →
        ∀ m, (docElems d).find? (isTag "main") = some m → locateContent d = m) := by
  refine ⟨?_, ?_, ?_⟩
  · intro a ha
    unfold locateContent semanticContent
    rw [ha]
  · intro h1 r hr
    unfold locateContent semanticContent
    rw [h1, hr]
  · intro h1 h2 m hm
    unfold locateContent semanticContent
    rw [h1, h2, hm]

/-- Witness for C5: in a page holding both an `article` and a better-scoring
`div`, the `article` is located. -/
theorem c5_semantic_priority_witness : locateContent articleDoc = articleNode :=
  (c5_semantic_priority articleDoc).1 articleNode rfl

/-- C7: after every successful rebuild, the marker attribute
`data-reader-mode` on the live document's body element holds `"true"`, and the
re-entry guard of the next invocation reads that same marker, so the next run
reloads. -/
theorem c7_mode_flag (d d' : Document) (h : run d = RunResult.done d') :
    getAttrL d'.bodyAttrs "data-reader-mode" = some "true"
    ∧ run d' = RunResult.reload := by
  obtain ⟨hg, hd⟩ := run_done_inv d d' h
  have hattr : getAttrL d'.bodyAttrs "data-reader-mode" = some "true" := by
    rw [hd]
    show getAttrL (setAttrL d.bodyAttrs "data-reader-mode" "true") "data-reader-mode" = some "true"
    exact getAttrL_setAttrL d.bodyAttrs "data-reader-mode" "true"
  refine ⟨hattr, ?_⟩
  have hg' : readerGuard d' = true := by
    unfold readerGuard
    rw [hattr]
    rfl
  unfold run
  rw [hg']
  rfl

/-- Witness for C7: the rebuilt sample page carries the flag and reloads on
the next invocation. -/
theorem c7_mode_flag_witness :
    getAttrL sampleDone.bodyAttrs "data-reader-mode" = some "true"
    ∧ run sampleDone = RunResult.reload :=
  c7_mode_flag sampleDoc sampleDone rfl

/-- C8: in the class/id exclusion pass, the removal step of an element whose
parent reference is already `null` is a guarded no-op (the state is
unchanged), and the pass, run in an error monad where an unguarded null
dereference would be a thrown error, succeeds on every input clone. -/
theorem c8_guard_safety :
    (∀ (s : CState) (i : Info), s.2.contains i.1 = true → classIdStep s i = s)
    ∧ (∀ c : Node, classIdPassE c = Except.ok (classIdPassPair c)) := by
  constructor
  · intro s i hnull
    unfold classIdStep
    cases hb : badClassId i.2.2 with
    | false => rfl
    | true => rw [if_pos rfl, if_pos hnull]
  · intro c
    exact foldlM_classIdStepE (infosUnder c) (c, [])

/-- Witness for C8: a detached ad-classed element is skipped unchanged, and
the pass on the sample div succeeds. -/
theorem c8_guard_safety_witness :
    classIdStep (sampleDiv, [4]) (4, "span", "ad-banner-top ") = (sampleDiv, [4])
    ∧ classIdPassE sampleDiv = Except.ok (classIdPassPair sampleDiv) :=
  ⟨c8_guard_safety.1 (sampleDiv, [4]) (4, "span", "ad-banner-top ") rfl,
   c8_guard_safety.2 sampleDiv⟩

/-- C9: the destructive cleanup passes act only on the detached clone: the
cloning step and both cleanup phases leave the live document component of the
transformation state unchanged, so until the reset-and-transfer steps the
original document is untouched. -/
theorem c9_cleanup_frame (d : Document) (s : MidState) :
    (cloneStep d).doc = d
    ∧ (cloneStep d).clone = locateContent d
    ∧ (tagCleanStep s).doc = s.doc
    ∧ (classIdCleanStep s).doc = s.doc
    ∧ (classIdCleanStep (tagCleanStep (cloneStep d))).doc = d :=
  ⟨cloneStep_doc d, cloneStep_clone d, tagCleanStep_doc s, classIdCleanStep_doc s, by
    rw [classIdCleanStep_doc, tagCleanStep_doc, cloneStep_doc]⟩

/-- Splitting membership in the rebuilt body's records: an element record
beneath `[heading, …transferred children]` is the heading's own record or one
of the cleaned clone's descendants. -/
theorem infos_cons_heading (t : String) (q : Node) (x : Info)
    (hx : x ∈ infosL (NodeList.cons (newHeading t) (childrenOf q))) :
    x = (0, "h1", lowerStr (attrD [] "class" ++ " " ++ attrD [] "id")) ∨ x ∈ infosUnder q := by
  simp only [infosL, newHeading, infosN, List.append_nil, List.nil_append,
    List.mem_append, List.mem_cons] at hx
  rcases hx with (h | h) | h
  · exact Or.inl h
  · exact absurd h (List.not_mem_nil x)
  · exact Or.inr h

/-- C1: for every document on which the transformation runs to completion, the
rebuilt body is exactly one fresh heading element whose text is the extracted
title, followed in order by the children transferred from the cleaned clone,
and no element at or beneath the transferred children (nor the heading) has a
tag in the exclusion set or a combined lowercase class+id string matching the
cleanup patterns. -/
theorem c1_rebuild_invariant (d dr : Document) (h : run d = RunResult.done dr) :
    dr.bodyChildren =
      NodeList.cons (newHeading (extractTitle d))
        (childrenOf (classIdPass (cleanTags (locateContent d))))
    ∧ innerTextN (newHeading (extractTitle d)) = extractTitle d
    ∧ (∀ x ∈ infosL dr.bodyChildren, x.2.1 ∉ removeTags ∧ badClassId x.2.2 = false) := by
  obtain ⟨hg, hd⟩ := run_done_inv d dr h
  subst hd
  refine ⟨rfl, ?_, ?_⟩
  · show extractTitle d ++ "" = extractTitle d
    cases hstr : extractTitle d with
    | mk data =>
        show String.mk (data ++ []) = String.mk data
        rw [List.append_nil]
  · intro x hx
    have hx1 : x ∈ infosL (NodeList.cons (newHeading (extractTitle d))
        (childrenOf (classIdPass (cleanTags (locateContent d))))) := hx
    rcases infos_cons_heading (extractTitle d)
        (classIdPass (cleanTags (locateContent d))) x hx1 with hx1 | hx2
    · rw [hx1]
      constructor
      · decide
      · decide
    · constructor
      · intro hmem
        exact cleanTags_kills (locateContent d) x.2.1 hmem x
          (classIdPass_sub (cleanTags (locateContent d)) x hx2) rfl
      · exact classIdPass_kills (cleanTags (locateContent d)) x hx2

/-- Witness for C1: the completed run on the sample page satisfies the body
invariant. -/
theorem c1_rebuild_invariant_witness :
    sampleDone.bodyChildren =
      NodeList.cons (newHeading (extractTitle sampleDoc))
        (childrenOf (classIdPass (cleanTags (locateContent sampleDoc))))
    ∧ innerTextN (newHeading (extractTitle sampleDoc)) = extractTitle sampleDoc
    ∧ (∀ x ∈ infosL sampleDone.bodyChildren, x.2.1 ∉ removeTags ∧ badClassId x.2.2 = false) :=
  c1_rebuild_invariant sampleDoc sampleDone rfl

/-- C3: the computed score of any node is the sum of the capped text-density
base, three per paragraph descendant, minus fifty when its own tag is
`nav`/`aside`/`footer`/`header`, minus thirty when the lowercase class+id
string matches a penalty keyword, plus twenty-five when it matches a bonus
keyword — the last two checks independent of each other. -/
theorem c3_score_closed_form (node : Node) :
    scoreNode node =
      min (((innerTextN node).length : ℚ) / 100) 20
      + 3 * (pCount node : ℚ)
      + (if tagName node = "nav" ∨ tagName node = "aside" ∨ tagName node = "footer" ∨ tagName node = "header"
         then (-50 : ℚ) else 0)
      + (if testAny scorePenaltyPats (ciString node) = true then (-30 : ℚ) else 0)
      + (if testAny scoreBonusPats (ciString node) = true then (25 : ℚ) else 0) := by
  have htag : (tagName node == "nav" || tagName node == "aside" || tagName node == "footer" || tagName node == "header") = true
      ↔ (tagName node = "nav" ∨ tagName node = "aside" ∨ tagName node = "footer" ∨ tagName node = "header") := by
    simp [Bool.or_eq_true, beq_iff_eq, or_assoc]
  simp only [scoreNode, htag]
  split_ifs <;> ring

/-- C4: with no semantic marker present, the locator returns the body when
there are no `div`/`section`/`td` candidates at all, and otherwise the
candidate list splits around the returned node with all earlier candidates
scoring strictly less (first-seen wins ties) and all later ones scoring no
more (strictly highest score wins). -/
theorem c4_heuristic_selection (d : Document)
    (hA : (docElems d).find? (isTag "article") = none)
    (hR : (docElems d).find? hasRoleMain = none)
    (hM : (docElems d).find? (isTag "main") = none) :
    (candidates d = [] → locateContent d = bodyNode d)
    ∧ (∀ c cs, candidates d = c :: cs →
        ∃ pre post, candidates d = pre ++ locateContent d :: post
          ∧ (∀ x ∈ pre, scoreNode x < scoreNode (locateContent d))
          ∧ (∀ x ∈ post, scoreNode x ≤ scoreNode (locateContent d))) := by
  have hsem : semanticContent d = none := by
    unfold semanticContent
    rw [hA, hR, hM]
  constructor
  · intro hc
    unfold locateContent
    rw [hsem, hc]
    rfl
  · intro c cs hcand
    have hsel : selectLoop (candidates d) = some (loopSpec c cs) := by
      rw [hcand]
      exact selectLoop_cons c cs
    have hloc : locateContent d = loopSpec c cs := by
      unfold locateContent
      rw [hsem, hsel]
    obtain ⟨pre, post, he, hpre, hpost⟩ := loopSpec_first_max cs c
    refine ⟨pre, post, ?_, ?_, ?_⟩
    · rw [hcand, hloc]
      exact he
    · rw [hloc]
      exact hpre
    · rw [hloc]
      exact hpost

/-- Witness for C4: the sample page has no semantic marker, and its candidate
list splits around the located node as described. -/
theorem c4_heuristic_selection_witness :
    (candidates sampleDoc = [] → locateContent sampleDoc = bodyNode sampleDoc)
    ∧ (∀ c cs, candidates sampleDoc = c :: cs →
        ∃ pre post, candidates sampleDoc = pre ++ locateContent sampleDoc :: post
          ∧ (∀ x ∈ pre, scoreNode x < scoreNode (locateContent sampleDoc))
          ∧ (∀ x ∈ post, scoreNode x ≤ scoreNode (locateContent sampleDoc))) :=
  c4_heuristic_selection sampleDoc rfl rfl rfl

/-- C6: the rebuilt document title is the fixed prefix `"Reader: "` followed
by the extracted title — the first `h1`'s text when that element exists with
non-empty text, otherwise the pre-existing document title. -/
theorem c6_title_rebuild (d dr : Document) (h : run d = RunResult.done dr) :
    dr.title = "Reader: " ++
      (match (docElems d).find? (isTag "h1") with
       | some hh => if innerTextN hh ≠ "" then innerTextN hh else d.title
       | none => d.title) := by
  obtain ⟨hg, hd⟩ := run_done_inv d dr h
  subst hd
  show "Reader: " ++ extractTitle d = _
  congr 1
  unfold extractTitle
  cases hfind : (docElems d).find? (isTag "h1") with
  | none => rfl
  | some hh =>
      by_cases hne : innerTextN hh = ""
      · simp [hne]
      · simp [hne]

/-- Witness for C6: the sample page has no `h1`, so the rebuilt title is the
prefixed original title. -/
theorem c6_title_rebuild_witness :
    sampleDone.title = "Reader: " ++
      (match (docElems sampleDoc).find? (isTag "h1") with
       | some hh => if innerTextN hh ≠ "" then innerTextN hh else sampleDoc.title
       | none => sampleDoc.title) :=
  c6_title_rebuild sampleDoc sampleDone rfl

/-- C10: the heuristic scan only ever scores elements whose tag is `div`,
`section` or `td`, and on every such element the score equals the scoring
function with the own-tag penalty term deleted — the minus-fifty branch is
unreachable during selection. -/
theorem c10_score_refinement (d : Document) :
    (∀ n ∈ candidates d, tagName n = "div" ∨ tagName n = "section" ∨ tagName n = "td")
    ∧ (∀ n : Node, tagName n = "div" ∨ tagName n = "section" ∨ tagName n = "td" →
        scoreNode n = scoreNodeNoOwnTag n) := by
  constructor
  · intro n hn
    have hp := (List.mem_filter.mp hn).2
    simp only [isTag, Bool.or_eq_true, beq_iff_eq] at hp
    tauto
  · intro n hn
    have hfalse : (tagName n == "nav" || tagName n == "aside" || tagName n == "footer" || tagName n == "header") = false := by
      rcases hn with h | h | h <;> rw [h] <;> decide
    simp only [scoreNode, scoreNodeNoOwnTag, hfalse, Bool.false_eq_true, if_false]

/-- Witness for C10: the sample candidate is a `div` and its score agrees with
the penalty-free scoring function. -/
theorem c10_score_refinement_witness :
    scoreNode sampleDiv = scoreNodeNoOwnTag sampleDiv :=
  (c10_score_refinement sampleDoc).2 sampleDiv (Or.inl rfl)

end ReaderMode
